import Mathlib

/-!
Verification of the field-extraction and normalization pipeline of the
Screwfix scraper (`src/Screwfix_scraper.py`).

Strings are modelled as `List Char`; Python floats are idealized as exact
rationals (`ℚ`); the `"N/A"` sentinel / numeric / string union of the
`details` dictionary values is the inductive type `FVal`.  A Python function
that can raise an exception is modelled with `Option` (`none` = exception).

Rational arithmetic is written through the computable `qmul` (shown equal to
`*` by `qmul_eq`) and `mkRat`, so that every definition evaluates by kernel
reduction on concrete inputs.
-/

namespace Screwfix

/-- A value stored in the `details` dictionary: the `"N/A"` unknown sentinel,
a number (Python `int`/`float`, idealized as `ℚ`), or a text string. -/
inductive FVal where
  | na : FVal
  | num : ℚ → FVal
  | str : List Char → FVal
deriving DecidableEq, Repr

/-- Exact rational multiplication, written so that it evaluates by kernel
reduction; `qmul_eq` identifies it with `*`. -/
def qmul (a b : ℚ) : ℚ := mkRat (a.num * b.num) (a.den * b.den)

theorem qmul_eq (a b : ℚ) : qmul a b = a * b := by
  unfold qmul
  rw [Rat.mkRat_eq_div]
  push_cast
  conv_rhs => rw [← Rat.num_div_den a, ← Rat.num_div_den b]
  rw [div_mul_div_comm]

/-- `startsWith pat l` holds when `pat` is an initial segment of `l`
(Boolean, executable). -/
def startsWith : List Char → List Char → Bool
  | [], _ => true
  | _ :: _, [] => false
  | a :: as, b :: bs => a == b && startsWith as bs

/-- Python's substring test `pat in l` on strings. -/
def hasSub (pat : List Char) : List Char → Bool
  | [] => pat.isEmpty
  | c :: rest => startsWith pat (c :: rest) || hasSub pat rest

/-- Python's `str.strip()`: drop whitespace from both ends. -/
def stripChars (l : List Char) : List Char :=
  ((l.dropWhile Char.isWhitespace).reverse.dropWhile Char.isWhitespace).reverse

/-- The numeric value of a list of decimal digit characters, read left to
right (the integer Python's `float` parser assigns to a digit run). -/
def digitsVal (l : List Char) : ℕ :=
  l.foldl (fun acc c => acc * 10 + (c.toNat - 48)) 0

/-- Python's `float(s)` restricted to strings of digits and periods (the only
characters the scraper's filters let through): `none` models the
`ValueError` raised when the string is empty, is a lone `"."`, or has more
than one `"."`. -/
def pyFloat? (l : List Char) : Option ℚ :=
  let intP := l.takeWhile (fun c => !(c == '.'))
  let rest := l.dropWhile (fun c => !(c == '.'))
  match rest with
  | [] => if l.isEmpty then none else some (mkRat (digitsVal l) 1)
  | _ :: frac =>
    if frac.contains '.' then none
    else if intP.isEmpty && frac.isEmpty then none
    else some (mkRat (digitsVal intP * 10 ^ frac.length + digitsVal frac) (10 ^ frac.length))

/-- The unit-conversion factor chosen by `clean_dim`
(`src/Screwfix_scraper.py` lines 449-454), applied to the lowered and
stripped value string. -/
def dimFactor (s : List Char) : ℚ :=
  if hasSub "mm".toList s then mkRat 1 1000
  else if hasSub "cm".toList s then mkRat 1 100
  else if hasSub ['m'] s && !hasSub "mm".toList s then 1
  else if hasSub ['\"'] s || hasSub "inch".toList s || hasSub "imperial".toList s then mkRat 254 10000
  else 1

/-- The unit-conversion factor chosen by `clean_vol`
(`src/Screwfix_scraper.py` lines 468-474). -/
def volFactor (s : List Char) : ℚ :=
  if hasSub "ml".toList s then mkRat 1 1000000
  else if hasSub "ltr".toList s || hasSub "liter".toList s || hasSub "litre".toList s then mkRat 1 1000
  else if hasSub "m3".toList s then 1
  else 1

/-- The unit-conversion factor chosen by `clean_area`
(`src/Screwfix_scraper.py` lines 488-492). -/
def areaFactor (s : List Char) : ℚ :=
  if hasSub "mm2".toList s || hasSub "mm²".toList s then mkRat 1 1000000
  else if hasSub "cm2".toList s || hasSub "cm²".toList s then mkRat 1 10000
  else if hasSub "m2".toList s || hasSub "m²".toList s then 1
  else 1

/-- The character filter Python applies: keep digits and periods. -/
def isDigitOrDot (c : Char) : Bool := c.isDigit || c == '.'

/-- `clean_dim` (`src/Screwfix_scraper.py` lines 445-462): extract the
numeric value and convert to meters.  `some FVal.na` is the returned
`"N/A"`, `some (FVal.num q)` a returned float, `none` a raised
`ValueError` from `float(...)`. -/
def clean_dim (val_str : List Char) : Option FVal :=
  if val_str = [] ∨ val_str = "N/A".toList then some FVal.na
  else
    let s := stripChars (val_str.map Char.toLower)
    let clean_val := s.filter isDigitOrDot
    if clean_val = [] then some FVal.na
    else (pyFloat? clean_val).map (fun q => FVal.num (qmul q (dimFactor s)))

/-- `clean_vol` (`src/Screwfix_scraper.py` lines 464-482): extract the
numeric value and convert to cubic meters. -/
def clean_vol (val_str : List Char) : Option FVal :=
  if val_str = [] ∨ val_str = "N/A".toList then some FVal.na
  else
    let s := stripChars (val_str.map Char.toLower)
    let clean_val := s.filter isDigitOrDot
    if clean_val = [] then some FVal.na
    else (pyFloat? clean_val).map (fun q => FVal.num (qmul q (volFactor s)))

/-- `clean_area` (`src/Screwfix_scraper.py` lines 484-500): extract the
numeric value and convert to square meters. -/
def clean_area (val_str : List Char) : Option FVal :=
  if val_str = [] ∨ val_str = "N/A".toList then some FVal.na
  else
    let s := stripChars (val_str.map Char.toLower)
    let clean_val := s.filter isDigitOrDot
    if clean_val = [] then some FVal.na
    else (pyFloat? clean_val).map (fun q => FVal.num (qmul q (areaFactor s)))

/-- Python's `f"{x:.{prec}f}"` on a nonnegative float, idealized to exact
decimal formatting of a rational with `prec` digits after the point
(rounding half up). -/
def formatFixed (q : ℚ) (prec : ℕ) : List Char :=
  let scaled : ℤ := Int.fdiv (2 * q.num * (10 : ℤ) ^ prec + q.den) (2 * q.den)
  let n : ℕ := scaled.toNat
  let fracDigits := Nat.toDigits 10 (n % 10 ^ prec)
  Nat.toDigits 10 (n / 10 ^ prec) ++ ['.'] ++
    (List.replicate (prec - fracDigits.length) '0' ++ fracDigits)

/-- The `details` dictionary fields the specification-table mapping logic and
the derived-volume step read or write (`src/Screwfix_scraper.py` lines
579-598); `Name` is always a string in the code, the rest start at `"N/A"`. -/
structure Details where
  Name : List Char
  Volume_M3 : FVal
  Product_Length_M : FVal
  Product_Width : FVal
  Product_Thickness : FVal
  Product_Weight_Kg : FVal
  Pieces_in_Pack : FVal
  Product_Type : FVal
  Coverage_M2 : FVal
  Material : FVal
deriving DecidableEq, Repr

/-- The freshly initialized `details` dictionary (`src/Screwfix_scraper.py`
lines 579-598), restricted to the fields modelled here. -/
def initDetails : Details :=
  { Name := "N/A".toList
    Volume_M3 := FVal.na
    Product_Length_M := FVal.na
    Product_Width := FVal.na
    Product_Thickness := FVal.na
    Product_Weight_Kg := FVal.na
    Pieces_in_Pack := FVal.na
    Product_Type := FVal.na
    Coverage_M2 := FVal.na
    Material := FVal.na }

/-- The bulk/aggregate material keywords (`src/Screwfix_scraper.py` line 734). -/
def material_types : List (List Char) :=
  ["sand".toList, "gravel".toList, "aggregate".toList, "ballast".toList,
   "stone".toList, "cobble".toList, "pebble".toList, "topsoil".toList,
   "chippings".toList, "bulk bag".toList]

/-- One pass of the specification-row mapping logic
(`src/Screwfix_scraper.py` lines 708-786): the row's two cells arrive as raw
inner text, the key is stripped and lowered, the value stripped (line
716-717); rows with an empty or `"-"` value are skipped (line 721); then the
`elif` chain classifies the row.  A `none` from a `clean_*` helper models the
`ValueError` that aborts the row inside the per-row `try` (line 788), leaving
`details` unchanged. -/
def mapSpecRow (d : Details) (rawKey rawVal : List Char) : Details :=
  let key := (stripChars rawKey).map Char.toLower
  let val := stripChars rawVal
  if val = [] ∨ val = "-".toList then d
  else if hasSub "volume".toList key then
    let val_lower := val.map Char.toLower
    if hasSub "kg".toList val_lower then
      let d1 := { d with Product_Weight_Kg := FVal.str val }
      let item_name := d.Name.map Char.toLower
      if material_types.any (fun m => hasSub m item_name) then
        match pyFloat? (val.filter isDigitOrDot) with
        | some numeric_kg =>
          if d1.Volume_M3 = FVal.na then
            let vtxt := formatFixed (qmul numeric_kg (mkRat 6 10000)) 4 ++ " m3 (Est. from density)".toList
            { d1 with Volume_M3 := FVal.str vtxt }
          else d1
        | none => d1
      else d1
    else
      match clean_vol val with
      | some v => { d with Volume_M3 := v }
      | none => d
  else if hasSub "pieces in pack".toList key then { d with Pieces_in_Pack := FVal.str val }
  else if ["product length".toList, "length".toList, "roll length".toList,
           "cable length".toList].any (fun x => hasSub x key) then
    match clean_dim val with
    | some val_dim =>
      if hasSub "(metric)".toList key ∨ d.Product_Length_M = FVal.na then
        { d with Product_Length_M := val_dim }
      else d
    | none => d
  else if hasSub "width".toList key then
    match clean_dim val with
    | some val_dim =>
      if hasSub "(metric)".toList key ∨ d.Product_Width = FVal.na then
        { d with Product_Width := val_dim }
      else d
    | none => d
  else if ["thickness".toList, "depth".toList, "height".toList].any (fun x => hasSub x key) then
    if hasSub "product".toList key ∨ hasSub "(metric)".toList key then
      match clean_dim val with
      | some val_dim =>
        if hasSub "(metric)".toList key ∨ d.Product_Thickness = FVal.na then
          { d with Product_Thickness := val_dim }
        else d
      | none => d
    else d
  else if hasSub "weight".toList key then
    if ¬ hasSub "shipping".toList key ∧ ¬ hasSub "package".toList key then
      { d with Product_Weight_Kg := FVal.str val }
    else d
  else if hasSub "product type".toList key ∨ key = "type".toList then
    { d with Product_Type := FVal.str val }
  else if hasSub "coverage".toList key then
    match clean_area val with
    | some v => { d with Coverage_M2 := v }
    | none => d
  else if hasSub "material".toList key then { d with Material := FVal.str val }
  else d

/-- Processing a sequence of specification rows in order. -/
def processSpecRows (d : Details) (rows : List (List Char × List Char)) : Details :=
  rows.foldl (fun d kv => mapSpecRow d kv.1 kv.2) d

/-- The automatic volume calculation (`src/Screwfix_scraper.py` lines
867-881): only when `Volume_M3` is still `"N/A"` and length, width and
thickness are all non-`"N/A"`, numeric (`isinstance` check) and strictly
positive, set the formatted calculated volume. -/
def autoVolumeCalc (d : Details) : Details :=
  if d.Volume_M3 = FVal.na then
    if d.Product_Length_M ≠ FVal.na ∧ d.Product_Width ≠ FVal.na ∧ d.Product_Thickness ≠ FVal.na then
      match d.Product_Length_M, d.Product_Width, d.Product_Thickness with
      | FVal.num l, FVal.num w, FVal.num t =>
        if 0 < l ∧ 0 < w ∧ 0 < t then
          let vtxt := formatFixed (qmul (qmul l w) t) 6 ++ " m3 (Calculated)".toList
          { d with Volume_M3 := FVal.str vtxt }
        else d
      | _, _, _ => d
    else d
  else d

/-- Python `dict` lookup on an association list (first binding wins). -/
def lookupA : List (List Char × FVal) → List Char → Option FVal
  | [], _ => none
  | (k, v) :: rest, key => if k = key then some v else lookupA rest key

/-- Python `dict` assignment to an existing key: replace the first binding
in place. -/
def updateA : List (List Char × FVal) → List Char → FVal → List (List Char × FVal)
  | [], _, _ => []
  | (k, v) :: rest, key, nv => if k = key then (k, nv) :: rest else (k, v) :: updateA rest key nv

/-- One step of the "Smart Update" merge of `run_worker_batch`
(`src/Screwfix_scraper.py` lines 1032-1038), merging one `details` entry
into the accumulating `item` association list: a key not yet present is
added (even when `"N/A"`), an existing key is overwritten only when the new
value is not `"N/A"`. -/
def mergeStep (item : List (List Char × FVal)) (kv : List Char × FVal) : List (List Char × FVal) :=
  if (lookupA item kv.1).isNone then item ++ [kv]
  else if kv.2 ≠ FVal.na then updateA item kv.1 kv.2
  else item

/-- The full "Smart Update" loop (`src/Screwfix_scraper.py` lines
1032-1038): fold every `details` entry into `item`. -/
def smartUpdate (item details : List (List Char × FVal)) : List (List Char × FVal) :=
  details.foldl mergeStep item

theorem startsWith_iff (pat l : List Char) : startsWith pat l = true ↔ ∃ v, pat ++ v = l := by
  induction pat generalizing l with
  | nil => simp [startsWith]
  | cons a as ih =>
    cases l with
    | nil => simp [startsWith]
    | cons b bs =>
      simp only [startsWith, Bool.and_eq_true, beq_iff_eq, ih]
      constructor
      · rintro ⟨rfl, v, rfl⟩
        exact ⟨v, rfl⟩
      · rintro ⟨v, hv⟩
        injection hv with h1 h2
        exact ⟨h1, v, h2⟩

theorem hasSub_iff (pat l : List Char) : hasSub pat l = true ↔ ∃ u v, u ++ (pat ++ v) = l := by
  induction l with
  | nil =>
    simp only [hasSub, List.isEmpty_iff]
    constructor
    · rintro rfl
      exact ⟨[], [], rfl⟩
    · rintro ⟨u, v, huv⟩
      rcases List.append_eq_nil.mp huv with ⟨-, h2⟩
      rcases List.append_eq_nil.mp h2 with ⟨h3, -⟩
      exact h3
  | cons c rest ih =>
    simp only [hasSub, Bool.or_eq_true, startsWith_iff, ih]
    constructor
    · rintro (⟨v, hv⟩ | ⟨u, v, huv⟩)
      · exact ⟨[], v, by simpa using hv⟩
      · exact ⟨c :: u, v, by rw [← huv]; rfl⟩
    · rintro ⟨u, v, huv⟩
      cases u with
      | nil =>
        left
        exact ⟨v, by simpa using huv⟩
      | cons x xs =>
        right
        injection huv with h1 h2
        exact ⟨xs, v, h2⟩

theorem hasSub_trans {p q l : List Char} (h1 : hasSub p q = true) (h2 : hasSub q l = true) :
    hasSub p l = true := by
  rcases (hasSub_iff p q).mp h1 with ⟨u1, v1, hq⟩
  rcases (hasSub_iff q l).mp h2 with ⟨u2, v2, hl⟩
  apply (hasSub_iff p l).mpr
  refine ⟨u2 ++ u1, v1 ++ v2, ?_⟩
  rw [← hl, ← hq]
  simp [List.append_assoc]

theorem hasSub_map (f : Char → Char) {pat l : List Char} (h : hasSub pat l = true) :
    hasSub (pat.map f) (l.map f) = true := by
  rcases (hasSub_iff pat l).mp h with ⟨u, v, rfl⟩
  exact (hasSub_iff _ _).mpr ⟨u.map f, v.map f, by simp⟩

theorem hasSub_reverse {pat l : List Char} (h : hasSub pat l = true) :
    hasSub pat.reverse l.reverse = true := by
  rcases (hasSub_iff pat l).mp h with ⟨u, v, rfl⟩
  exact (hasSub_iff _ _).mpr ⟨v.reverse, u.reverse, by simp⟩

theorem hasSub_dropWhile (p : Char → Bool) {pat l : List Char} (h : hasSub pat l = true)
    (hne : pat ≠ []) (hch : ∀ c ∈ pat, p c = false) :
    hasSub pat (l.dropWhile p) = true := by
  induction l with
  | nil =>
    exact absurd (List.isEmpty_iff.mp (by simpa [hasSub] using h)) hne
  | cons c rest ih =>
    rw [List.dropWhile]
    by_cases hc : p c = true
    · rw [hc]
      apply ih
      by_cases hs : startsWith pat (c :: rest) = true
      · exfalso
        cases pat with
        | nil => exact hne rfl
        | cons a as =>
          have hs' : a = c ∧ startsWith as rest = true := by simpa [startsWith] using hs
          have hpa := hch a (List.mem_cons_self a as)
          rw [hs'.1] at hpa
          rw [hpa] at hc
          cases hc
      · have := h
        simp only [hasSub, Bool.eq_false_iff.mpr hs, Bool.false_or] at this
        exact this
    · rw [Bool.eq_false_iff.mpr hc]
      simpa using h

theorem hasSub_stripChars {pat l : List Char} (h : hasSub pat l = true)
    (hne : pat ≠ []) (hch : ∀ c ∈ pat, Char.isWhitespace c = false) :
    hasSub pat (stripChars l) = true := by
  unfold stripChars
  have h1 := hasSub_dropWhile Char.isWhitespace h hne hch
  have h2 := hasSub_reverse h1
  have h3 := hasSub_dropWhile Char.isWhitespace h2
    (by simpa using hne) (by intro c hc; exact hch c (List.mem_reverse.mp hc))
  have h4 := hasSub_reverse h3
  simpa using h4

theorem mem_dropWhile {c : Char} {p : Char → Bool} {l : List Char}
    (h : c ∈ l.dropWhile p) : c ∈ l := by
  induction l with
  | nil => simp [List.dropWhile] at h
  | cons a rest ih =>
    rw [List.dropWhile] at h
    by_cases ha : p a = true
    · rw [ha] at h
      exact List.mem_cons_of_mem a (ih h)
    · rw [Bool.eq_false_iff.mpr ha] at h
      simpa using h

theorem mem_stripChars {c : Char} {l : List Char} (h : c ∈ stripChars l) : c ∈ l := by
  unfold stripChars at h
  have h1 := mem_dropWhile (List.mem_reverse.mp h)
  exact mem_dropWhile (List.mem_reverse.mp h1)

theorem UInt32_le_iff (a b : UInt32) : (a ≤ b) ↔ a.toNat ≤ b.toNat := by
  rw [UInt32.le_def, BitVec.le_def]
  rfl

theorem isDigit_iff (x : Char) : x.isDigit = true ↔ 48 ≤ x.toNat ∧ x.toNat ≤ 57 := by
  simp only [Char.isDigit, Bool.and_eq_true, decide_eq_true_eq]
  constructor
  · rintro ⟨h1, h2⟩
    exact ⟨(UInt32_le_iff _ _).1 h1, (UInt32_le_iff _ _).1 h2⟩
  · rintro ⟨h1, h2⟩
    exact ⟨(UInt32_le_iff _ _).2 h1, (UInt32_le_iff _ _).2 h2⟩

theorem toNat_ofNat_valid (n : ℕ) (h : n < 55296) : (Char.ofNat n).toNat = n := by
  rw [Char.ofNat, dif_pos (Or.inl h)]
  rfl

theorem toLower_isDigit (c : Char) : (Char.toLower c).isDigit = c.isDigit := by
  by_cases h : c.toNat ≥ 65 ∧ c.toNat ≤ 90
  · have hl : Char.toLower c = Char.ofNat (c.toNat + 32) := by
      unfold Char.toLower
      exact if_pos h
    have hval : (Char.ofNat (c.toNat + 32)).toNat = c.toNat + 32 := toNat_ofNat_valid _ (by omega)
    have h1 : (Char.ofNat (c.toNat + 32)).isDigit = false := by
      rw [Bool.eq_false_iff]
      intro hd
      have := (isDigit_iff _).1 hd
      omega
    have h2 : c.isDigit = false := by
      rw [Bool.eq_false_iff]
      intro hd
      have := (isDigit_iff _).1 hd
      omega
    rw [hl, h1, h2]
  · have hl : Char.toLower c = c := by
      unfold Char.toLower
      exact if_neg h
    rw [hl]

theorem toLower_eq_dot (c : Char) : Char.toLower c = '.' ↔ c = '.' := by
  by_cases h : c.toNat ≥ 65 ∧ c.toNat ≤ 90
  · have hl : Char.toLower c = Char.ofNat (c.toNat + 32) := by
      unfold Char.toLower
      exact if_pos h
    have hval : (Char.ofNat (c.toNat + 32)).toNat = c.toNat + 32 := toNat_ofNat_valid _ (by omega)
    constructor
    · intro he
      exfalso
      rw [hl] at he
      have : (Char.ofNat (c.toNat + 32)).toNat = ('.' : Char).toNat := by rw [he]
      have hdot : ('.' : Char).toNat = 46 := by decide
      omega
    · intro he
      exfalso
      have : c.toNat = 46 := by rw [he]; decide
      omega
  · have hl : Char.toLower c = c := by
      unfold Char.toLower
      exact if_neg h
    rw [hl]

theorem lookupA_append_some {l1 : List (List Char × FVal)} {k : List Char} {v : FVal}
    (h : lookupA l1 k = some v) (l2 : List (List Char × FVal)) :
    lookupA (l1 ++ l2) k = some v := by
  induction l1 with
  | nil => simp [lookupA] at h
  | cons kv rest ih =>
    obtain ⟨k0, v0⟩ := kv
    by_cases hk : k0 = k
    · simp only [lookupA, if_pos hk] at h ⊢
      exact h
    · simp only [lookupA, if_neg hk] at h ⊢
      exact ih h

theorem lookupA_append_none {l1 : List (List Char × FVal)} {k : List Char}
    (h : lookupA l1 k = none) (l2 : List (List Char × FVal)) :
    lookupA (l1 ++ l2) k = lookupA l2 k := by
  induction l1 with
  | nil => rfl
  | cons kv rest ih =>
    obtain ⟨k0, v0⟩ := kv
    by_cases hk : k0 = k
    · rw [lookupA, if_pos hk] at h
      exact (Option.some_ne_none v0 h).elim
    · simp only [lookupA, if_neg hk] at h ⊢
      exact ih h

theorem lookupA_updateA_ne {l : List (List Char × FVal)} {k' k : List Char} (v : FVal)
    (h : k' ≠ k) : lookupA (updateA l k' v) k = lookupA l k := by
  induction l with
  | nil => rfl
  | cons kv rest ih =>
    obtain ⟨k0, v0⟩ := kv
    by_cases h0 : k0 = k'
    · subst h0
      simp only [updateA, if_pos rfl, lookupA, if_neg h]
    · by_cases hk : k0 = k
      · simp only [updateA, if_neg h0, lookupA, if_pos hk]
      · simp only [updateA, if_neg h0, lookupA, if_neg hk]
        exact ih

theorem lookupA_updateA_self {l : List (List Char × FVal)} {k : List Char} {w : FVal}
    (h : lookupA l k = some w) (v : FVal) : lookupA (updateA l k v) k = some v := by
  induction l with
  | nil => simp [lookupA] at h
  | cons kv rest ih =>
    obtain ⟨k0, v0⟩ := kv
    by_cases hk : k0 = k
    · simp only [updateA, if_pos hk, lookupA]
    · simp only [lookupA, if_neg hk] at h
      simp only [updateA, if_neg hk, lookupA, if_neg hk]
      exact ih h

theorem updateA_self_eq {l : List (List Char × FVal)} {k : List Char} {v : FVal}
    (h : lookupA l k = some v) : updateA l k v = l := by
  induction l with
  | nil => simp [lookupA] at h
  | cons kv rest ih =>
    obtain ⟨k0, v0⟩ := kv
    by_cases hk : k0 = k
    · simp only [lookupA, if_pos hk, Option.some_inj] at h
      simp only [updateA, if_pos hk, h]
    · simp only [lookupA, if_neg hk] at h
      simp only [updateA, if_neg hk]
      rw [ih h]

theorem smartUpdate_lookup_other {d : List (List Char × FVal)} {k : List Char}
    (hd : ∀ kv ∈ d, kv.1 ≠ k) (item : List (List Char × FVal)) :
    lookupA (smartUpdate item d) k = lookupA item k := by
  induction d generalizing item with
  | nil => rfl
  | cons kv rest ih =>
    have hk : kv.1 ≠ k := hd kv (List.mem_cons_self kv rest)
    have hstep : lookupA (mergeStep item kv) k = lookupA item k := by
      unfold mergeStep
      split_ifs with h1 h2
      · cases hli : lookupA item k with
        | none => rw [lookupA_append_none hli]; simp [lookupA, hk]
        | some v => rw [lookupA_append_some hli]
      · exact lookupA_updateA_ne kv.2 hk
      · rfl
    have : smartUpdate item (kv :: rest) = smartUpdate (mergeStep item kv) rest := rfl
    rw [this, ih (fun kv' h' => hd kv' (List.mem_cons_of_mem kv h')), hstep]

theorem smartUpdate_fixed {d item : List (List Char × FVal)}
    (hd : ∀ kv ∈ d, lookupA item kv.1 = some kv.2) : smartUpdate item d = item := by
  induction d with
  | nil => rfl
  | cons kv rest ih =>
    have h1 : lookupA item kv.1 = some kv.2 := hd kv (List.mem_cons_self kv rest)
    have hstep : mergeStep item kv = item := by
      unfold mergeStep
      by_cases h2 : kv.2 = FVal.na
      · simp [h1, h2]
      · simp [h1, h2, updateA_self_eq h1]
    have : smartUpdate item (kv :: rest) = smartUpdate (mergeStep item kv) rest := rfl
    rw [this, hstep]
    exact ih (fun kv' h' => hd kv' (List.mem_cons_of_mem kv h'))

theorem nodup_lookupA {d : List (List Char × FVal)}
    (hnd : (d.map Prod.fst).Nodup) : ∀ kv ∈ d, lookupA d kv.1 = some kv.2 := by
  induction d with
  | nil => intro kv h; simp at h
  | cons kv0 rest ih =>
    obtain ⟨k0, v0⟩ := kv0
    rw [List.map_cons, List.nodup_cons] at hnd
    intro kv hm
    rcases List.mem_cons.mp hm with rfl | hm'
    · simp [lookupA]
    · have hne : k0 ≠ kv.1 := by
        intro he
        apply hnd.1
        rw [he]
        exact List.mem_map.mpr ⟨kv, hm', rfl⟩
      simp only [lookupA, if_neg hne]
      exact ih hnd.2 kv hm'

theorem lookupA_decompose {d : List (List Char × FVal)} {k : List Char} {w : FVal}
    (hnd : (d.map Prod.fst).Nodup) (h : lookupA d k = some w) :
    ∃ pre post, d = pre ++ (k, w) :: post ∧ (∀ kv ∈ pre, kv.1 ≠ k) ∧
      (∀ kv ∈ post, kv.1 ≠ k) := by
  induction d with
  | nil => simp [lookupA] at h
  | cons kv0 rest ih =>
    obtain ⟨k0, v0⟩ := kv0
    rw [List.map_cons, List.nodup_cons] at hnd
    by_cases hk : k0 = k
    · subst hk
      rw [lookupA, if_pos rfl] at h
      injection h with h2
      subst h2
      refine ⟨[], rest, rfl, by simp, ?_⟩
      intro kv hm he
      apply hnd.1
      rw [← he]
      exact List.mem_map.mpr ⟨kv, hm, rfl⟩
    · simp only [lookupA, if_neg hk] at h
      obtain ⟨pre, post, rfl, hpre, hpost⟩ := ih hnd.2 h
      exact ⟨(k0, v0) :: pre, post, rfl,
        fun kv hm => by
          rcases List.mem_cons.mp hm with rfl | hm'
          · exact hk
          · exact hpre kv hm',
        hpost⟩

/-- Claim C3, counterexample: on the input `"."` — a nonempty string other
than `"N/A"` containing no digit — all three normalizers raise `ValueError`
(`float(".")`), modelled as `none`, instead of returning the `"N/A"`
sentinel. -/
theorem clean_dim_dot_raises :
    clean_dim ".".toList = none ∧ clean_vol ".".toList = none ∧
    clean_area ".".toList = none ∧ ('.' : Char).isDigit = false ∧
    ".".toList ≠ ([] : List Char) ∧ ".".toList ≠ "N/A".toList := by decide

/-- Claim C3 (corrected): each normalizer returns a numeric result or the
Unknown sentinel without raising, provided the input is empty, is the
literal `"N/A"`, or contains no digit and no `"."` character; a nonempty
digit-free input containing `"."` (e.g. `"."`) instead raises `ValueError`
inside `float`. -/
theorem normalizers_unknown_on_digitless (s : List Char)
    (h : s = [] ∨ s = "N/A".toList ∨ (∀ c ∈ s, c.isDigit = false ∧ c ≠ '.')) :
    clean_dim s = some FVal.na ∧ clean_vol s = some FVal.na ∧
    clean_area s = some FVal.na := by
  rcases h with rfl | rfl | h
  · exact ⟨by decide, by decide, by decide⟩
  · exact ⟨by decide, by decide, by decide⟩
  · by_cases h0 : s = [] ∨ s = "N/A".toList
    · unfold clean_dim clean_vol clean_area
      rw [if_pos h0, if_pos h0, if_pos h0]
      exact ⟨rfl, rfl, rfl⟩
    · have hfil : (stripChars (s.map Char.toLower)).filter isDigitOrDot = [] := by
        rw [List.filter_eq_nil_iff]
        intro c hc
        have hc1 : c ∈ s.map Char.toLower := mem_stripChars hc
        obtain ⟨c0, hc0, rfl⟩ := List.mem_map.mp hc1
        obtain ⟨hd, hdot⟩ := h c0 hc0
        intro hcontra
        have hcontra' : c0.toLower.isDigit = true ∨ c0.toLower = '.' := by
          simpa [isDigitOrDot] using hcontra
        rcases hcontra' with h1 | h2
        · rw [toLower_isDigit, hd] at h1
          cases h1
        · exact hdot ((toLower_eq_dot c0).mp h2)
      unfold clean_dim clean_vol clean_area
      rw [if_neg h0, if_neg h0, if_neg h0]
      simp only [hfil, if_pos rfl]
      exact ⟨rfl, rfl, rfl⟩

/-- Claim C3, witness: the theorem applied to the digit-free input `"abc"`. -/
theorem normalizers_unknown_on_digitless_witness :
    clean_dim "abc".toList = some FVal.na ∧ clean_vol "abc".toList = some FVal.na ∧
    clean_area "abc".toList = some FVal.na :=
  normalizers_unknown_on_digitless "abc".toList (Or.inr (Or.inr (by decide)))

/-- Claim C4 (confirmed): the length normalizer maps `"250mm"` to `0.25`,
`"2.5cm"` to `0.025`, `"1.2m"` to `1.2`, `"6 inch"` to `0.1524`; the volume
normalizer maps `"500ml"` to `0.0005` and `"2 litre"` to `0.002` — exact
values in SI units, no rounding. -/
theorem normalizer_known_conversions :
    clean_dim "250mm".toList = some (FVal.num 0.25) ∧
    clean_dim "2.5cm".toList = some (FVal.num 0.025) ∧
    clean_dim "1.2m".toList = some (FVal.num 1.2) ∧
    clean_dim "6 inch".toList = some (FVal.num 0.1524) ∧
    clean_vol "500ml".toList = some (FVal.num 0.0005) ∧
    clean_vol "2 litre".toList = some (FVal.num 0.002) := by
  refine ⟨?_, ?_, ?_, ?_, ?_, ?_⟩
  · rw [show (0.25 : ℚ) = mkRat 1 4 by rw [Rat.mkRat_eq_div]; norm_num]
    decide
  · rw [show (0.025 : ℚ) = mkRat 1 40 by rw [Rat.mkRat_eq_div]; norm_num]
    decide
  · rw [show (1.2 : ℚ) = mkRat 6 5 by rw [Rat.mkRat_eq_div]; norm_num]
    decide
  · rw [show (0.1524 : ℚ) = mkRat 381 2500 by rw [Rat.mkRat_eq_div]; norm_num]
    decide
  · rw [show (0.0005 : ℚ) = mkRat 1 2000 by rw [Rat.mkRat_eq_div]; norm_num]
    decide
  · rw [show (0.002 : ℚ) = mkRat 1 500 by rw [Rat.mkRat_eq_div]; norm_num]
    decide

/-- Claim C7 (confirmed): the Smart Update merge never overwrites a field
already holding a known (non-`"N/A"`) value with `"N/A"`, and always
replaces an `"N/A"` value with any known value; `item` and `details` are
arbitrary, so the property holds regardless of which source plays which
role.  The key-uniqueness hypothesis is Python's `dict` invariant. -/
theorem merge_unknown_never_overwrites (item details : List (List Char × FVal))
    (hnd : (details.map Prod.fst).Nodup) :
    (∀ k v, lookupA item k = some v → v ≠ FVal.na → lookupA details k = some FVal.na →
      lookupA (smartUpdate item details) k = some v) ∧
    (∀ k v, lookupA item k = some FVal.na → lookupA details k = some v → v ≠ FVal.na →
      lookupA (smartUpdate item details) k = some v) := by
  constructor
  · intro k v hv hne hd
    obtain ⟨pre, post, rfl, hpre, hpost⟩ := lookupA_decompose hnd hd
    have h1 : lookupA (smartUpdate item pre) k = some v := by
      rw [smartUpdate_lookup_other hpre]
      exact hv
    have hstep : mergeStep (smartUpdate item pre) (k, FVal.na) = smartUpdate item pre := by
      unfold mergeStep
      simp [h1]
    calc lookupA (smartUpdate item (pre ++ (k, FVal.na) :: post)) k
        = lookupA (smartUpdate (mergeStep (smartUpdate item pre) (k, FVal.na)) post) k := by
          unfold smartUpdate
          rw [List.foldl_append]
          rfl
      _ = lookupA (smartUpdate (smartUpdate item pre) post) k := by rw [hstep]
      _ = lookupA (smartUpdate item pre) k := smartUpdate_lookup_other hpost _
      _ = some v := h1
  · intro k v hna hd hne
    obtain ⟨pre, post, rfl, hpre, hpost⟩ := lookupA_decompose hnd hd
    have h1 : lookupA (smartUpdate item pre) k = some FVal.na := by
      rw [smartUpdate_lookup_other hpre]
      exact hna
    have hstep : mergeStep (smartUpdate item pre) (k, v) = updateA (smartUpdate item pre) k v := by
      unfold mergeStep
      simp [h1, hne]
    calc lookupA (smartUpdate item (pre ++ (k, v) :: post)) k
        = lookupA (smartUpdate (mergeStep (smartUpdate item pre) (k, v)) post) k := by
          unfold smartUpdate
          rw [List.foldl_append]
          rfl
      _ = lookupA (smartUpdate (updateA (smartUpdate item pre) k v) post) k := by rw [hstep]
      _ = lookupA (updateA (smartUpdate item pre) k v) k := smartUpdate_lookup_other hpost _
      _ = some v := lookupA_updateA_self h1 v

/-- Claim C7, witness: merging a record whose `Volume_M3` is known with one
where it is `"N/A"` keeps the known value, and the unknown `Material` is
filled from the known one. -/
theorem merge_unknown_never_overwrites_witness :
    lookupA (smartUpdate [("Volume_M3".toList, FVal.num 5), ("Material".toList, FVal.na)]
      [("Volume_M3".toList, FVal.na), ("Material".toList, FVal.str "Steel".toList)])
      "Volume_M3".toList = some (FVal.num 5) ∧
    lookupA (smartUpdate [("Volume_M3".toList, FVal.num 5), ("Material".toList, FVal.na)]
      [("Volume_M3".toList, FVal.na), ("Material".toList, FVal.str "Steel".toList)])
      "Material".toList = some (FVal.str "Steel".toList) :=
  ⟨(merge_unknown_never_overwrites _ _ (by decide)).1 "Volume_M3".toList (FVal.num 5)
      (by decide) (by decide) (by decide),
   (merge_unknown_never_overwrites _ _ (by decide)).2 "Material".toList
      (FVal.str "Steel".toList) (by decide) (by decide) (by decide)⟩

/-- Claim C8 (confirmed): the Smart Update merge is idempotent — merging a
record (a Python `dict`, so with distinct keys) with itself returns it
unchanged, so no field regresses to `"N/A"`. -/
theorem merge_idempotent (r : List (List Char × FVal))
    (hnd : (r.map Prod.fst).Nodup) : smartUpdate r r = r :=
  smartUpdate_fixed (nodup_lookupA hnd)

/-- Claim C8, witness: idempotence at a concrete two-field record. -/
theorem merge_idempotent_witness :
    smartUpdate [("Name".toList, FVal.str "Sand".toList), ("Volume_M3".toList, FVal.na)]
      [("Name".toList, FVal.str "Sand".toList), ("Volume_M3".toList, FVal.na)] =
      [("Name".toList, FVal.str "Sand".toList), ("Volume_M3".toList, FVal.na)] :=
  merge_idempotent _ (by decide)

/-- Claim C9 (confirmed): when Volume is still unknown and Length, Width,
Thickness are all known, numeric and strictly positive, the derived-value
step sets Volume to the product formatted to six decimals tagged
`"(Calculated)"`; when any of the three is unknown, non-numeric or not
strictly positive, the record is left unchanged. -/
theorem dimensional_volume_calculation :
    (∀ (d : Details) (l w t : ℚ), d.Volume_M3 = FVal.na →
      d.Product_Length_M = FVal.num l → d.Product_Width = FVal.num w →
      d.Product_Thickness = FVal.num t → 0 < l → 0 < w → 0 < t →
      (autoVolumeCalc d).Volume_M3 =
        FVal.str (formatFixed (qmul (qmul l w) t) 6 ++ " m3 (Calculated)".toList)) ∧
    (∀ d : Details,
      (¬ ∃ l w t : ℚ, d.Product_Length_M = FVal.num l ∧ d.Product_Width = FVal.num w ∧
        d.Product_Thickness = FVal.num t ∧ 0 < l ∧ 0 < w ∧ 0 < t) →
      autoVolumeCalc d = d) := by
  constructor
  · intro d l w t hv hl hw ht hlp hwp htp
    unfold autoVolumeCalc
    rw [if_pos hv]
    have h1 : d.Product_Length_M ≠ FVal.na := by
      rw [hl]
      intro hx
      cases hx
    have h2 : d.Product_Width ≠ FVal.na := by
      rw [hw]
      intro hx
      cases hx
    have h3 : d.Product_Thickness ≠ FVal.na := by
      rw [ht]
      intro hx
      cases hx
    rw [if_pos ⟨h1, h2, h3⟩, hl, hw, ht]
    dsimp only
    rw [if_pos ⟨hlp, hwp, htp⟩]
  · intro d hne
    unfold autoVolumeCalc
    by_cases hv : d.Volume_M3 = FVal.na
    · rw [if_pos hv]
      by_cases hall : d.Product_Length_M ≠ FVal.na ∧ d.Product_Width ≠ FVal.na ∧
          d.Product_Thickness ≠ FVal.na
      · rw [if_pos hall]
        split
        · rename_i l w t hL hW hT
          rw [if_neg]
          rintro ⟨hlp, hwp, htp⟩
          exact hne ⟨l, w, t, hL, hW, hT, hlp, hwp, htp⟩
        · rfl
      · rw [if_neg hall]
    · rw [if_neg hv]

/-- Claim C9, witness: with Length = 2, Width = 0.5, Thickness = 0.02 and
Volume unknown, the result is the string `"0.020000 m3 (Calculated)"`; a
record with a zero thickness is left unchanged. -/
theorem dimensional_volume_calculation_witness :
    (autoVolumeCalc
      { initDetails with
          Product_Length_M := FVal.num (mkRat 2 1)
          Product_Width := FVal.num (mkRat 1 2)
          Product_Thickness := FVal.num (mkRat 1 50) }).Volume_M3 =
      FVal.str "0.020000 m3 (Calculated)".toList ∧
    autoVolumeCalc
      { initDetails with
          Product_Length_M := FVal.num (mkRat 2 1)
          Product_Width := FVal.num (mkRat 1 2)
          Product_Thickness := FVal.num 0 } =
      { initDetails with
          Product_Length_M := FVal.num (mkRat 2 1)
          Product_Width := FVal.num (mkRat 1 2)
          Product_Thickness := FVal.num 0 } := by
  constructor
  · have h := dimensional_volume_calculation.1
      { initDetails with
          Product_Length_M := FVal.num (mkRat 2 1)
          Product_Width := FVal.num (mkRat 1 2)
          Product_Thickness := FVal.num (mkRat 1 50) }
      (mkRat 2 1) (mkRat 1 2) (mkRat 1 50) rfl rfl rfl rfl
      (by decide) (by decide) (by decide)
    rw [h]
    decide
  · refine dimensional_volume_calculation.2 _ ?_
    rintro ⟨l, w, t, hl, hw, ht, hlp, hwp, htp⟩
    have ht' : FVal.num (0 : ℚ) = FVal.num t := ht
    injection ht' with h0
    rw [← h0] at htp
    exact lt_irrefl 0 htp

theorem mapSpecRow_volume_unchanged_of_not_volume (d : Details) (rawKey rawVal : List Char)
    (hnv : hasSub "volume".toList ((stripChars rawKey).map Char.toLower) = false) :
    (mapSpecRow d rawKey rawVal).Volume_M3 = d.Volume_M3 := by
  simp only [mapSpecRow]
  by_cases h0 : stripChars rawVal = [] ∨ stripChars rawVal = "-".toList
  · rw [if_pos h0]
  · rw [if_neg h0, if_neg (by simpa using hnv)]
    split_ifs <;>
      first
        | rfl
        | (split <;> rfl)

theorem mapSpecRow_volume_unchanged_of_kg (d : Details) (rawKey rawVal : List Char)
    (hv : d.Volume_M3 ≠ FVal.na)
    (hkg : hasSub "kg".toList ((stripChars rawVal).map Char.toLower) = true) :
    (mapSpecRow d rawKey rawVal).Volume_M3 = d.Volume_M3 := by
  by_cases h1 : hasSub "volume".toList ((stripChars rawKey).map Char.toLower) = true
  · simp only [mapSpecRow]
    by_cases h0 : stripChars rawVal = [] ∨ stripChars rawVal = "-".toList
    · rw [if_pos h0]
    · rw [if_neg h0, if_pos h1, if_pos hkg]
      by_cases hmat :
          List.any material_types (fun m => hasSub m (List.map Char.toLower d.Name)) = true
      · rw [if_pos hmat]
        split
        · rw [if_neg hv]
        · rfl
      · rw [if_neg hmat]
  · exact mapSpecRow_volume_unchanged_of_not_volume d rawKey rawVal
      (Bool.not_eq_true _ ▸ h1)

/-- Claim C1, counterexample: two successive direct-parse volume rows on one
page; the first sets `Volume_M3 = 0.002` but the second (value `"litres"`,
which parses to the sentinel) overwrites it and regresses it to `"N/A"` —
the direct specification parse assigns unconditionally, so a volume already
set can be recomputed, overwritten and regressed by a later row. -/
theorem volume_regressed_by_later_row :
    (mapSpecRow initDetails "Volume".toList "2 litre".toList).Volume_M3 =
      FVal.num (mkRat 1 500) ∧
    (mapSpecRow (mapSpecRow initDetails "Volume".toList "2 litre".toList)
      "Volume".toList "litres".toList).Volume_M3 = FVal.na := by decide

/-- Claim C1 (corrected): the weight-density estimate and the dimensional
calculation never recompute, overwrite or regress a volume value that is
already set — only a later direct-parse volume row (label containing
`"volume"`, value without `"kg"`) can change a set `Volume_M3`, and it does
so unconditionally. -/
theorem volume_set_only_changed_by_direct_parse :
    (∀ d : Details, d.Volume_M3 ≠ FVal.na → autoVolumeCalc d = d) ∧
    (∀ (d : Details) (rawKey rawVal : List Char), d.Volume_M3 ≠ FVal.na →
      (mapSpecRow d rawKey rawVal).Volume_M3 ≠ d.Volume_M3 →
      hasSub "volume".toList ((stripChars rawKey).map Char.toLower) = true ∧
      hasSub "kg".toList ((stripChars rawVal).map Char.toLower) = false) := by
  constructor
  · intro d hv
    unfold autoVolumeCalc
    rw [if_neg hv]
  · intro d rawKey rawVal hv hch
    by_cases h1 : hasSub "volume".toList ((stripChars rawKey).map Char.toLower) = true
    · by_cases h2 : hasSub "kg".toList ((stripChars rawVal).map Char.toLower) = true
      · exact absurd (mapSpecRow_volume_unchanged_of_kg d rawKey rawVal hv h2) hch
      · exact ⟨h1, Bool.not_eq_true _ ▸ h2⟩
    · exact absurd (mapSpecRow_volume_unchanged_of_not_volume d rawKey rawVal
        (Bool.not_eq_true _ ▸ h1)) hch

/-- Claim C1, witness: a record with a set volume is untouched by the
dimensional calculation, and a `"Material"` row can only leave the set
volume unchanged. -/
theorem volume_set_only_changed_by_direct_parse_witness :
    autoVolumeCalc { initDetails with Volume_M3 := FVal.num 1 } =
      { initDetails with Volume_M3 := FVal.num 1 } ∧
    ((mapSpecRow { initDetails with Volume_M3 := FVal.num 1 }
        "Material".toList "Steel".toList).Volume_M3 ≠
          ({ initDetails with Volume_M3 := FVal.num 1 } : Details).Volume_M3 →
      hasSub "volume".toList ((stripChars "Material".toList).map Char.toLower) = true ∧
      hasSub "kg".toList ((stripChars "Steel".toList).map Char.toLower) = false) :=
  ⟨volume_set_only_changed_by_direct_parse.1 _ (by decide),
   volume_set_only_changed_by_direct_parse.2 _ "Material".toList "Steel".toList (by decide)⟩

/-- Claim C2 (confirmed): a specification row whose label contains
`"volume"` and whose value contains `"kg"` stores the verbatim (stripped)
value in the Weight field; when additionally the product name contains a
bulk-material keyword, the volume is still unknown, and the value's
digit-and-dot filtrate parses, Volume becomes the kilogram value times
`0.0006 = 6/10000`, formatted to four decimals with the density tag. -/
theorem volume_kg_row_sets_weight (d : Details) (rawKey rawVal : List Char)
    (hval : ¬(stripChars rawVal = [] ∨ stripChars rawVal = "-".toList))
    (hvol : hasSub "volume".toList ((stripChars rawKey).map Char.toLower) = true)
    (hkg : hasSub "kg".toList ((stripChars rawVal).map Char.toLower) = true) :
    (mapSpecRow d rawKey rawVal).Product_Weight_Kg = FVal.str (stripChars rawVal) ∧
    (∀ q : ℚ, (material_types.any fun m => hasSub m (d.Name.map Char.toLower)) = true →
      d.Volume_M3 = FVal.na →
      pyFloat? ((stripChars rawVal).filter isDigitOrDot) = some q →
      (mapSpecRow d rawKey rawVal).Volume_M3 =
        FVal.str (formatFixed (qmul q (mkRat 6 10000)) 4 ++ " m3 (Est. from density)".toList)) := by
  simp only [mapSpecRow]
  rw [if_neg hval, if_pos hvol, if_pos hkg]
  constructor
  · by_cases hmat : (material_types.any fun m => hasSub m (List.map Char.toLower d.Name)) = true
    · rw [if_pos hmat]
      split
      · split_ifs <;> rfl
      · rfl
    · rw [if_neg hmat]
  · intro q hmat hna hpf
    rw [if_pos hmat, hpf]
    dsimp only
    rw [if_pos hna]

/-- Claim C2, witness: the spec's example — label `"Volume (kg)"`, value
`"25kg"`, product `"Sharp Sand 25kg Bulk Bag"` — yields Weight `"25kg"` and
Volume `"0.0150 m3 (Est. from density)"`. -/
theorem volume_kg_row_sets_weight_witness :
    (mapSpecRow { initDetails with Name := "Sharp Sand 25kg Bulk Bag".toList }
      "Volume (kg)".toList "25kg".toList).Product_Weight_Kg = FVal.str "25kg".toList ∧
    (mapSpecRow { initDetails with Name := "Sharp Sand 25kg Bulk Bag".toList }
      "Volume (kg)".toList "25kg".toList).Volume_M3 =
      FVal.str "0.0150 m3 (Est. from density)".toList := by
  have h := volume_kg_row_sets_weight
    { initDetails with Name := "Sharp Sand 25kg Bulk Bag".toList }
    "Volume (kg)".toList "25kg".toList (by decide) (by decide) (by decide)
  constructor
  · rw [h.1]
    decide
  · rw [h.2 (mkRat 25 1) (by decide) (by decide) (by decide)]
    decide

/-- Claim C5 (confirmed): unit detection checks the more specific token
first — any input containing `"mm"` gets the `0.001` factor (never the
bare-meter `1.0`), and any input containing `"mm2"` or `"mm²"` gets the
`1e-6` factor (never the `m²` `1.0`). -/
theorem unit_detection_precedence :
    (∀ s : List Char, hasSub "mm".toList s = true →
      dimFactor (stripChars (s.map Char.toLower)) = mkRat 1 1000) ∧
    (∀ s : List Char, hasSub "mm2".toList s = true ∨ hasSub "mm²".toList s = true →
      areaFactor (stripChars (s.map Char.toLower)) = mkRat 1 1000000) := by
  constructor
  · intro s h
    have h1 : hasSub "mm".toList (s.map Char.toLower) = true := by
      have h2 := hasSub_map Char.toLower h
      rw [show ("mm".toList.map Char.toLower) = "mm".toList from by decide] at h2
      exact h2
    have h2 : hasSub "mm".toList (stripChars (s.map Char.toLower)) = true :=
      hasSub_stripChars h1 (by decide) (by decide)
    unfold dimFactor
    rw [if_pos h2]
  · intro s h
    rcases h with h | h
    · have h1 : hasSub "mm2".toList (s.map Char.toLower) = true := by
        have h2 := hasSub_map Char.toLower h
        rw [show ("mm2".toList.map Char.toLower) = "mm2".toList from by decide] at h2
        exact h2
      have h2 : hasSub "mm2".toList (stripChars (s.map Char.toLower)) = true :=
        hasSub_stripChars h1 (by decide) (by decide)
      unfold areaFactor
      rw [if_pos (by rw [h2, Bool.true_or])]
    · have h1 : hasSub "mm²".toList (s.map Char.toLower) = true := by
        have h2 := hasSub_map Char.toLower h
        rw [show ("mm²".toList.map Char.toLower) = "mm²".toList from by decide] at h2
        exact h2
      have h2 : hasSub "mm²".toList (stripChars (s.map Char.toLower)) = true :=
        hasSub_stripChars h1 (by decide) (by decide)
      unfold areaFactor
      rw [if_pos (by rw [h2, Bool.or_true])]

/-- Claim C5, witness: the theorem applied to `"250mm"` and `"30mm2"`. -/
theorem unit_detection_precedence_witness :
    dimFactor (stripChars ("250mm".toList.map Char.toLower)) = mkRat 1 1000 ∧
    areaFactor (stripChars ("30mm2".toList.map Char.toLower)) = mkRat 1 1000000 :=
  ⟨unit_detection_precedence.1 "250mm".toList (by decide),
   unit_detection_precedence.2 "30mm2".toList (Or.inl (by decide))⟩

/-- Claim C6, counterexample: the row label
`"Cable length width (metric)"` contains `"width"` and the metric marker,
but the earlier length branch captures it first — Width keeps its old value
`99` instead of being overwritten with the normalized `0.1`, and Length is
overwritten instead. -/
theorem width_metric_shadowed_by_length :
    (mapSpecRow { initDetails with Product_Width := FVal.num 99 }
      "Cable length width (metric)".toList "100mm".toList).Product_Width = FVal.num 99 ∧
    (mapSpecRow { initDetails with Product_Width := FVal.num 99 }
      "Cable length width (metric)".toList "100mm".toList).Product_Length_M =
      FVal.num (mkRat 1 10) ∧
    hasSub "width".toList
      ((stripChars "Cable length width (metric)".toList).map Char.toLower) = true ∧
    hasSub "(metric)".toList
      ((stripChars "Cable length width (metric)".toList).map Char.toLower) = true ∧
    clean_dim (stripChars "100mm".toList) = some (FVal.num (mkRat 1 10)) ∧
    FVal.num 99 ≠ FVal.num (mkRat 1 10) := by decide

/-- Claim C6 (corrected): for a row whose label contains `"width"` and is
not captured by an earlier classifier branch (no `"volume"`, no
`"pieces in pack"`, no length keyword), with a non-skipped value whose
normalization returns: a `"(metric)"` label always overwrites Width, and a
plain label writes Width only when it is still unknown (otherwise the row
changes nothing); the same override rule holds for rows the length branch
captures, targeting Length. -/
theorem width_override_rule (d : Details) (rawKey rawVal : List Char)
    (hval : ¬(stripChars rawVal = [] ∨ stripChars rawVal = "-".toList))
    (hnv : hasSub "volume".toList ((stripChars rawKey).map Char.toLower) = false)
    (hnp : hasSub "pieces in pack".toList ((stripChars rawKey).map Char.toLower) = false) :
    (∀ fv : FVal, clean_dim (stripChars rawVal) = some fv →
      (["product length".toList, "length".toList, "roll length".toList,
        "cable length".toList].any fun x =>
          hasSub x ((stripChars rawKey).map Char.toLower)) = false →
      hasSub "width".toList ((stripChars rawKey).map Char.toLower) = true →
      ((hasSub "(metric)".toList ((stripChars rawKey).map Char.toLower) = true →
        (mapSpecRow d rawKey rawVal).Product_Width = fv) ∧
      (hasSub "(metric)".toList ((stripChars rawKey).map Char.toLower) = false →
        (d.Product_Width = FVal.na → (mapSpecRow d rawKey rawVal).Product_Width = fv) ∧
        (d.Product_Width ≠ FVal.na → mapSpecRow d rawKey rawVal = d)))) ∧
    (∀ fv : FVal, clean_dim (stripChars rawVal) = some fv →
      (["product length".toList, "length".toList, "roll length".toList,
        "cable length".toList].any fun x =>
          hasSub x ((stripChars rawKey).map Char.toLower)) = true →
      ((hasSub "(metric)".toList ((stripChars rawKey).map Char.toLower) = true →
        (mapSpecRow d rawKey rawVal).Product_Length_M = fv) ∧
      (hasSub "(metric)".toList ((stripChars rawKey).map Char.toLower) = false →
        (d.Product_Length_M = FVal.na → (mapSpecRow d rawKey rawVal).Product_Length_M = fv) ∧
        (d.Product_Length_M ≠ FVal.na → mapSpecRow d rawKey rawVal = d)))) := by
  constructor
  · intro fv hcd hnl hw
    simp only [mapSpecRow]
    rw [if_neg hval, if_neg (by simpa using hnv), if_neg (by simpa using hnp),
      if_neg (by simpa using hnl), if_pos hw, hcd]
    dsimp only
    constructor
    · intro hm
      rw [if_pos (Or.inl hm)]
    · intro hm
      constructor
      · intro hna
        rw [if_pos (Or.inr hna)]
      · intro hna
        rw [if_neg]
        rintro (hx | hx)
        · rw [hm] at hx
          cases hx
        · exact hna hx
  · intro fv hcd hl
    simp only [mapSpecRow]
    rw [if_neg hval, if_neg (by simpa using hnv), if_neg (by simpa using hnp),
      if_pos (by simpa using hl), hcd]
    dsimp only
    constructor
    · intro hm
      rw [if_pos (Or.inl hm)]
    · intro hm
      constructor
      · intro hna
        rw [if_pos (Or.inr hna)]
      · intro hna
        rw [if_neg]
        rintro (hx | hx)
        · rw [hm] at hx
          cases hx
        · exact hna hx

/-- Claim C6, witness: a `"Width (metric)"` row overwrites a known Width
`7` with the normalized `0.25`; a plain `"Width"` row leaves the known
value (and the whole record) unchanged; a plain `"Length"` row fills an
unknown Length. -/
theorem width_override_rule_witness :
    (mapSpecRow { initDetails with Product_Width := FVal.num 7 }
      "Width (metric)".toList "250mm".toList).Product_Width = FVal.num (mkRat 1 4) ∧
    mapSpecRow { initDetails with Product_Width := FVal.num 7 }
      "Width".toList "250mm".toList = { initDetails with Product_Width := FVal.num 7 } ∧
    (mapSpecRow initDetails "Length".toList "250mm".toList).Product_Length_M =
      FVal.num (mkRat 1 4) := by
  refine ⟨?_, ?_, ?_⟩
  · exact ((width_override_rule _ "Width (metric)".toList "250mm".toList (by decide) (by decide)
      (by decide)).1 (FVal.num (mkRat 1 4)) (by decide) (by decide) (by decide)).1 (by decide)
  · exact (((width_override_rule _ "Width".toList "250mm".toList (by decide) (by decide)
      (by decide)).1 (FVal.num (mkRat 1 4)) (by decide) (by decide) (by decide)).2
      (by decide)).2 (by decide)
  · exact (((width_override_rule _ "Length".toList "250mm".toList (by decide) (by decide)
      (by decide)).2 (FVal.num (mkRat 1 4)) (by decide) (by decide)).2 (by decide)).1 (by decide)

/-- Claim C10, counterexample: `"75 MM imperial"` contains `"imperial"` and
contains neither `"mm"` nor `"cm"` verbatim, yet the normalizer lower-cases
first, so the `mm` branch fires: the result is `75 × 0.001 = 0.075`, not
the bare-meter `75 × 1.0`. -/
theorem imperial_claim_case_sensitivity :
    hasSub "imperial".toList "75 MM imperial".toList = true ∧
    hasSub "mm".toList "75 MM imperial".toList = false ∧
    hasSub "cm".toList "75 MM imperial".toList = false ∧
    "75 MM imperial".toList ≠ ([] : List Char) ∧
    "75 MM imperial".toList ≠ "N/A".toList ∧
    clean_dim "75 MM imperial".toList = some (FVal.num (mkRat 3 40)) ∧
    dimFactor (stripChars ("75 MM imperial".toList.map Char.toLower)) = mkRat 1 1000 ∧
    mkRat 1 1000 ≠ (1 : ℚ) := by decide

/-- Claim C10 (corrected): for every input string that contains the
substring `"imperial"` and whose lower-cased, stripped form — the form the
normalizer actually matches against — contains neither `"mm"` nor `"cm"`,
the bare-meter factor `1.0` is chosen, never the inch factor `0.0254`,
because `"imperial"` contains the letter `"m"` and the bare-`m` branch is
tested before the inch/imperial branch, which is unreachable for these
inputs.  (Such an input is automatically non-empty and not `"N/A"`.) -/
theorem imperial_branch_unreachable (s : List Char)
    (him : hasSub "imperial".toList s = true)
    (hmm : hasSub "mm".toList (stripChars (s.map Char.toLower)) = false)
    (hcm : hasSub "cm".toList (stripChars (s.map Char.toLower)) = false) :
    dimFactor (stripChars (s.map Char.toLower)) = 1 ∧ (1 : ℚ) ≠ mkRat 254 10000 := by
  constructor
  · have h1 : hasSub "imperial".toList (s.map Char.toLower) = true := by
      have h2 := hasSub_map Char.toLower him
      rw [show ("imperial".toList.map Char.toLower) = "imperial".toList from by decide] at h2
      exact h2
    have h2 : hasSub "imperial".toList (stripChars (s.map Char.toLower)) = true :=
      hasSub_stripChars h1 (by decide) (by decide)
    have hm : hasSub ['m'] (stripChars (s.map Char.toLower)) = true :=
      hasSub_trans (by decide) h2
    unfold dimFactor
    rw [if_neg (by rw [hmm]; decide), if_neg (by rw [hcm]; decide),
      if_pos (by rw [hm, hmm]; decide)]
  · decide

/-- Claim C10, witness: the theorem applied to `"6 imperial"`. -/
theorem imperial_branch_unreachable_witness :
    dimFactor (stripChars ("6 imperial".toList.map Char.toLower)) = 1 ∧
    (1 : ℚ) ≠ mkRat 254 10000 :=
  imperial_branch_unreachable "6 imperial".toList (by decide) (by decide) (by decide)

end Screwfix
